import Mathlib

/-!
Verification development for a Go QR-code encoder (packages `utils`, `base`,
`qr`).  Each Go function relevant to the checked claims is translated into an
executable Lean definition with the same name where possible.  Imperative
loops become structural folds or fuel-based recursion (fuel is always chosen
at least as large as the dynamic iteration count of the Go loop, so the
translation computes the same result); Go panics and returned errors both
surface as `none` under `Option`, with comments distinguishing them at use
sites.  Go `int` values that stay non-negative are modelled as `Nat`; values
that can go negative (row cursors, polynomial mod offsets, bit indices) are
modelled as `Int`.
-/

/-! ## utils: constants and mode tables -/

/-- QR encoding mode flags, from `utils.go` (`ModeNumeric = 1 << iota` etc.). -/
def ModeNumeric : Nat := 1

def ModeAlphanumeric : Nat := 2

def ModeByte : Nat := 4

def ModeKanji : Nat := 8

/-- Association list mirror of the Go map `ModeSizeSmall`. -/
def ModeSizeSmall : List (Nat × Nat) :=
  [(ModeNumeric, 10), (ModeAlphanumeric, 9), (ModeByte, 8), (ModeKanji, 8)]

def ModeSizeMedium : List (Nat × Nat) :=
  [(ModeNumeric, 12), (ModeAlphanumeric, 11), (ModeByte, 16), (ModeKanji, 10)]

def ModeSizeLarge : List (Nat × Nat) :=
  [(ModeNumeric, 14), (ModeAlphanumeric, 13), (ModeByte, 16), (ModeKanji, 12)]

/-- Go map lookup: zero value (0) when the key is absent. -/
def mapGet (m : List (Nat × Nat)) (k : Nat) : Nat :=
  match m.find? (fun p => p.1 = k) with
  | some p => p.2
  | none => 0

/-- Byte values of the 45-character alphanumeric alphabet
`0123456789ABCDEFGHIJKLMNOPQRSTUVWXYZ $%*+-./:` from `utils.go`. -/
def AlphanumericChars : List Nat :=
  [48, 49, 50, 51, 52, 53, 54, 55, 56, 57,
   65, 66, 67, 68, 69, 70, 71, 72, 73, 74, 75, 76, 77, 78, 79, 80, 81, 82,
   83, 84, 85, 86, 87, 88, 89, 90,
   32, 36, 37, 42, 43, 45, 46, 47, 58]

/-- Bit widths for the final numeric group, Go map `NumberLength`. -/
def NumberLength : List (Nat × Nat) := [(3, 10), (2, 7), (1, 4)]

def G15 : Nat := (1 <<< 10) ||| (1 <<< 8) ||| (1 <<< 5) ||| (1 <<< 4) ||| (1 <<< 2) ||| (1 <<< 1) ||| 1

def G18 : Nat :=
  (1 <<< 12) ||| (1 <<< 11) ||| (1 <<< 10) ||| (1 <<< 9) ||| (1 <<< 8) ||| (1 <<< 5) ||| (1 <<< 2) ||| 1

def G15_MASK : Nat := (1 <<< 14) ||| (1 <<< 12) ||| (1 <<< 10) ||| (1 <<< 4) ||| (1 <<< 1)

def PAD0 : Nat := 0xEC

def PAD1 : Nat := 0x11

/-! ## utils: BCH helpers -/

/-- Fuel-based bit length; `BCHDigitAux (n+1) n` performs the same halving loop
as Go `BCHDigit` (the loop runs `bitlen n ≤ n + 1` times). -/
def BCHDigitAux : Nat → Nat → Nat
  | 0, _ => 0
  | fuel + 1, n => if n = 0 then 0 else BCHDigitAux fuel (n / 2) + 1

/-- Number of bits in the binary representation, Go `BCHDigit`. -/
def BCHDigit (n : Nat) : Nat := BCHDigitAux (n + 1) n

/-- One reduction round of the BCH division loop in `BCHTypeInfo` /
`BCHTypeNumber`: while `BCHDigit d ≥ BCHDigit g`, xor in a shifted `g`.
`fuel` bounds the loop (15 rounds is far more than the Go loop ever runs). -/
def bchModLoop (g : Nat) : Nat → Nat → Nat
  | 0, d => d
  | fuel + 1, d =>
    if BCHDigit g ≤ BCHDigit d then
      bchModLoop g fuel (d ^^^ (g <<< (BCHDigit d - BCHDigit g)))
    else d

/-- Go `BCHTypeInfo`: 10-bit BCH remainder appended to `data`, masked. -/
def BCHTypeInfo (data : Nat) : Nat :=
  ((data <<< 10) ||| bchModLoop G15 20 (data <<< 10)) ^^^ G15_MASK

/-- Go `BCHTypeNumber`. -/
def BCHTypeNumber (data : Nat) : Nat :=
  (data <<< 12) ||| bchModLoop G18 20 (data <<< 12)

/-! ## base: GF(256) tables and polynomials -/

/-- Go `init` loop filling `EXP_TABLE`: entries `0..7` are powers of two, each
later entry is the xor of the entries 4, 5, 6 and 8 positions back. -/
def EXP_TABLE : List Nat :=
  (List.range 256).foldl
    (fun acc i =>
      if i < 8 then acc ++ [1 <<< i]
      else acc ++ [(acc.getD (i - 4) 0) ^^^ (acc.getD (i - 5) 0) ^^^
                   (acc.getD (i - 6) 0) ^^^ (acc.getD (i - 8) 0)])
    []

/-- Go `init` loop filling `LOG_TABLE`: `LOG_TABLE[EXP_TABLE[i]] = i` for
`i < 255`, over an all-zero initial table. -/
def LOG_TABLE : List Nat :=
  (List.range 255).foldl
    (fun acc i => acc.set (EXP_TABLE.getD i 0) i)
    (List.replicate 256 0)

/-- Go `glog`: fails (returned error) on inputs below 1; an index at or above
256 would be a Go slice panic, also `none`. -/
def glog (n : Nat) : Option Nat :=
  if n < 1 then none else LOG_TABLE.get? n

/-- Go `Gexp`, taking the Go truncated remainder on `int`; a negative index
into `EXP_TABLE` is a Go panic, modelled as `none`. -/
def Gexp (n : Int) : Option Nat :=
  if Int.tmod n 255 < 0 then none else EXP_TABLE.get? (Int.tmod n 255).toNat

/-- Go `Polynomial` (named `GFPoly` here: Mathlib already declares `Polynomial`). -/
structure GFPoly where
  num : List Nat
deriving DecidableEq, Repr

/-- Go `NewPolynomial`: rejects an empty coefficient list, drops leading zeros
(keeping the final coefficient when all are zero, as the Go `range` loop
does), then appends `shift` zero coefficients. -/
def NewGFPoly (num : List Nat) (shift : Nat) : Option GFPoly :=
  if num.isEmpty then none
  else
    let offset := min (num.findIdx (fun x => x ≠ 0)) (num.length - 1)
    some ⟨num.drop offset ++ List.replicate shift 0⟩

def GFPoly.len (p : GFPoly) : Nat := p.num.length

def GFPoly.get (p : GFPoly) (i : Nat) : Nat := p.num.getD i 0

/-- Convolution cell update of Go `Polynomial.Mul`: xor
`Gexp (glog aᵢ + glog bⱼ)` into position `i + j`, failing when a `glog`
fails. -/
def mulStep (a b : GFPoly) (acc : Option (List Nat)) (ij : Nat × Nat) :
    Option (List Nat) := do
  let num ← acc
  let la ← glog (a.get ij.1)
  let lb ← glog (b.get ij.2)
  let g ← Gexp (Int.ofNat (la + lb))
  pure (num.set (ij.1 + ij.2) ((num.getD (ij.1 + ij.2) 0) ^^^ g))

/-- Go `Polynomial.Mul`. -/
def GFPoly.mul (a b : GFPoly) : Option GFPoly := do
  let pairs := (List.range a.len).flatMap (fun i => (List.range b.len).map (fun j => (i, j)))
  let num ← pairs.foldl (mulStep a b) (some (List.replicate (a.len + b.len - 1) 0))
  NewGFPoly num 0

/-- One iteration of the Go `Polynomial.Mod` loop body: scale `other` by the
ratio of leading coefficients, xor it in, strip leading zeros.  An empty
result makes `NewGFPoly` fail (Go returned error). -/
def modStep (p other : GFPoly) : Option GFPoly := do
  let lp ← glog (p.get 0)
  let lo ← glog (other.get 0)
  let ratio : Int := Int.ofNat lp - Int.ofNat lo
  let num ← (List.range other.len).foldl
    (fun acc i => do
      let num ← acc
      let li ← glog (other.get i)
      let g ← Gexp (Int.ofNat li + ratio)
      pure (num.set i ((num.getD i 0) ^^^ g)))
    (some p.num)
  let stripped := num.drop (num.findIdx (fun x => x ≠ 0))
  NewGFPoly stripped 0

/-- Go `Polynomial.Mod`: repeat `modStep` while `p.len ≥ other.len`.  Each Go
iteration strictly shrinks `p`, so fuel `p.len + 1` covers every terminating
run; exhausted fuel is reported as `none`. -/
def modLoop (other : GFPoly) : Nat → GFPoly → Option GFPoly
  | 0, _ => none
  | fuel + 1, p =>
    if other.len ≤ p.len then do
      let p2 ← modStep p other
      modLoop other fuel p2
    else some p

def GFPoly.mod (p other : GFPoly) : Option GFPoly :=
  modLoop other (p.len + 1) p

/-! ## base: RS blocks -/

structure RSBlock where
  TotalCount : Nat
  DataCount : Nat
deriving DecidableEq, Repr

/-- Modelled from the spec: the Go package `constants` is not part of the
provided sources.  Spec section 9 gives the internal numeric ordering of the
error-correction levels as `L=0, M=1, Q=2, H=3`. -/
def ERROR_CORRECT_L : Nat := 0

def ERROR_CORRECT_M : Nat := 1

def ERROR_CORRECT_Q : Nat := 2

def ERROR_CORRECT_H : Nat := 3

/-- Go map `RS_BLOCK_OFFSET` (`L→0, M→1, Q→2, H→3`); absent key is a lookup
miss, which `RSBlocks` turns into a returned error. -/
def RS_BLOCK_OFFSET (ec : Nat) : Option Nat :=
  if ec = ERROR_CORRECT_L then some 0
  else if ec = ERROR_CORRECT_M then some 1
  else if ec = ERROR_CORRECT_Q then some 2
  else if ec = ERROR_CORRECT_H then some 3
  else none
/-- Go `RS_BLOCK_TABLE` from `base.go`: flat triples `(count, total, data)`,
row `(version-1)*4 + offset`. -/
def RS_BLOCK_TABLE : List (List Nat) :=
  [[1, 26, 19], [1, 26, 16], [1, 26, 13], [1, 26, 9],
   [1, 44, 34], [1, 44, 28], [1, 44, 22], [1, 44, 16],
   [1, 70, 55], [1, 70, 44], [2, 35, 17], [2, 35, 13],
   [1, 100, 80], [2, 50, 32], [2, 50, 24], [4, 25, 9],
   [1, 134, 108], [2, 67, 43], [2, 33, 15, 2, 34, 16], [2, 33, 11, 2, 34, 12],
   [2, 86, 68], [4, 43, 27], [4, 43, 19], [4, 43, 15],
   [2, 98, 78], [4, 49, 31], [2, 32, 14, 4, 33, 15], [4, 39, 13, 1, 40, 14],
   [2, 121, 97], [2, 60, 38, 2, 61, 39], [4, 40, 18, 2, 41, 19], [4, 40, 14, 2, 41, 15],
   [2, 146, 116], [3, 58, 36, 2, 59, 37], [4, 36, 16, 4, 37, 17], [4, 36, 12, 4, 37, 13],
   [2, 86, 68, 2, 87, 69], [4, 69, 43, 1, 70, 44], [6, 43, 19, 2, 44, 20], [6, 43, 15, 2, 44, 16],
   [4, 101, 81], [1, 80, 50, 4, 81, 51], [4, 50, 22, 4, 51, 23], [3, 36, 12, 8, 37, 13],
   [2, 116, 92, 2, 117, 93], [6, 58, 36, 2, 59, 37], [4, 46, 20, 6, 47, 21], [7, 42, 14, 4, 43, 15],
   [4, 133, 107], [8, 59, 37, 1, 60, 38], [8, 44, 20, 4, 45, 21], [12, 33, 11, 4, 34, 12],
   [3, 145, 115, 1, 146, 116], [4, 64, 40, 5, 65, 41], [11, 36, 16, 5, 37, 17], [11, 36, 12, 5, 37, 13],
   [5, 109, 87, 1, 110, 88], [5, 65, 41, 5, 66, 42], [5, 54, 24, 7, 55, 25], [11, 36, 12, 7, 37, 13],
   [5, 122, 98, 1, 123, 99], [7, 73, 45, 3, 74, 46], [15, 43, 19, 2, 44, 20], [3, 45, 15, 13, 46, 16],
   [1, 135, 107, 5, 136, 108], [10, 74, 46, 1, 75, 47], [1, 50, 22, 15, 51, 23], [2, 42, 14, 17, 43, 15],
   [5, 150, 120, 1, 151, 121], [9, 69, 43, 4, 70, 44], [17, 50, 22, 1, 51, 23], [2, 42, 14, 19, 43, 15],
   [3, 141, 113, 4, 142, 114], [3, 70, 44, 11, 71, 45], [17, 47, 21, 4, 48, 22], [9, 39, 13, 16, 40, 14],
   [3, 135, 107, 5, 136, 108], [3, 67, 41, 13, 68, 42], [15, 54, 24, 5, 55, 25], [15, 43, 15, 10, 44, 16],
   [4, 144, 116, 4, 145, 117], [17, 68, 42], [17, 50, 22, 6, 51, 23], [19, 46, 16, 6, 47, 17],
   [2, 139, 111, 7, 140, 112], [17, 74, 46], [7, 54, 24, 16, 55, 25], [34, 37, 13],
   [4, 151, 121, 5, 152, 122], [4, 75, 47, 14, 76, 48], [11, 54, 24, 14, 55, 25], [16, 45, 15, 14, 46, 16],
   [6, 147, 117, 4, 148, 118], [6, 73, 45, 14, 74, 46], [11, 54, 24, 16, 55, 25], [30, 46, 16, 2, 47, 17],
   [8, 132, 106, 4, 133, 107], [8, 75, 47, 13, 76, 48], [7, 54, 24, 22, 55, 25], [22, 45, 15, 13, 46, 16],
   [10, 142, 114, 2, 143, 115], [19, 74, 46, 4, 75, 47], [28, 50, 22, 6, 51, 23], [33, 46, 16, 4, 47, 17],
   [8, 152, 122, 4, 153, 123], [22, 73, 45, 3, 74, 46], [8, 53, 23, 26, 54, 24], [12, 45, 15, 28, 46, 16],
   [3, 147, 117, 10, 148, 118], [3, 73, 45, 23, 74, 46], [4, 54, 24, 31, 55, 25], [11, 45, 15, 31, 46, 16],
   [7, 146, 116, 7, 147, 117], [21, 73, 45, 7, 74, 46], [1, 53, 23, 37, 54, 24], [19, 45, 15, 26, 46, 16],
   [5, 145, 115, 10, 146, 116], [19, 75, 47, 10, 76, 48], [15, 54, 24, 25, 55, 25], [23, 45, 15, 25, 46, 16],
   [13, 145, 115, 3, 146, 116], [2, 74, 46, 29, 75, 47], [42, 54, 24, 1, 55, 25], [23, 45, 15, 28, 46, 16],
   [17, 145, 115], [10, 74, 46, 23, 75, 47], [10, 54, 24, 35, 55, 25], [19, 45, 15, 35, 46, 16],
   [17, 145, 115, 1, 146, 116], [14, 74, 46, 21, 75, 47], [29, 54, 24, 19, 55, 25], [11, 45, 15, 46, 46, 16],
   [13, 145, 115, 6, 146, 116], [14, 74, 46, 23, 75, 47], [44, 54, 24, 7, 55, 25], [59, 46, 16, 1, 47, 17],
   [12, 151, 121, 7, 152, 122], [12, 75, 47, 26, 76, 48], [39, 54, 24, 14, 55, 25], [22, 45, 15, 41, 46, 16],
   [6, 151, 121, 14, 152, 122], [6, 75, 47, 34, 76, 48], [46, 54, 24, 10, 55, 25], [2, 45, 15, 64, 46, 16],
   [17, 152, 122, 4, 153, 123], [29, 74, 46, 14, 75, 47], [49, 54, 24, 10, 55, 25], [24, 45, 15, 46, 46, 16],
   [4, 152, 122, 18, 153, 123], [13, 74, 46, 32, 75, 47], [48, 54, 24, 14, 55, 25], [42, 45, 15, 32, 46, 16],
   [20, 147, 117, 4, 148, 118], [40, 75, 47, 7, 76, 48], [43, 54, 24, 22, 55, 25], [10, 45, 15, 67, 46, 16],
   [19, 148, 118, 6, 149, 119], [18, 75, 47, 31, 76, 48], [34, 54, 24, 34, 55, 25], [20, 45, 15, 61, 46, 16]]

/-- Go `PatternPositionTable` from `utils.go` (alignment pattern centers,
indexed by `version - 1`). -/
def PatternPositionTable : List (List Nat) :=
  [[],
   [6, 18],
   [6, 22],
   [6, 26],
   [6, 30],
   [6, 34],
   [6, 22, 38],
   [6, 24, 42],
   [6, 26, 46],
   [6, 28, 50],
   [6, 30, 54],
   [6, 32, 58],
   [6, 34, 62],
   [6, 26, 46, 66],
   [6, 26, 48, 70],
   [6, 26, 50, 74],
   [6, 30, 54, 78],
   [6, 30, 56, 82],
   [6, 30, 58, 86],
   [6, 34, 62, 90],
   [6, 28, 50, 72, 94],
   [6, 26, 50, 74, 98],
   [6, 30, 54, 78, 102],
   [6, 28, 54, 80, 106],
   [6, 32, 58, 84, 110],
   [6, 30, 58, 86, 114],
   [6, 34, 62, 90, 118],
   [6, 26, 50, 74, 98, 122],
   [6, 30, 54, 78, 102, 126],
   [6, 26, 52, 78, 104, 130],
   [6, 30, 56, 82, 108, 134],
   [6, 34, 60, 86, 112, 138],
   [6, 30, 58, 86, 114, 142],
   [6, 34, 62, 90, 118, 146],
   [6, 30, 54, 78, 102, 126, 150],
   [6, 24, 50, 76, 102, 128, 154],
   [6, 28, 54, 80, 106, 132, 158],
   [6, 32, 58, 84, 110, 136, 162],
   [6, 26, 54, 82, 110, 138, 166],
   [6, 30, 58, 86, 114, 142, 170]]

/-- Go `RSBlocks`: expand the flat table row into `count` copies of each
`(total, data)` pair; an unknown EC level is a returned error.  The Go loop
reads triples at indices `i, i+1, i+2`; every table row length is a multiple
of three, matched here by chunking. -/
def RSBlocks (version ec : Nat) : Option (List RSBlock) := do
  let offset ← RS_BLOCK_OFFSET ec
  let row ← RS_BLOCK_TABLE.get? ((version - 1) * 4 + offset)
  let triples := (List.range (row.length / 3)).map
    (fun i => (row.getD (3 * i) 0, row.getD (3 * i + 1) 0, row.getD (3 * i + 2) 0))
  pure (triples.flatMap (fun t => List.replicate t.1 ⟨t.2.1, t.2.2⟩))

def PatternPosition (version : Nat) : List Nat :=
  PatternPositionTable.getD (version - 1) []

def CheckVersion (version : Nat) : Bool :=
  decide (1 ≤ version ∧ version ≤ 40)

/-- Go `ModeSizeVersion`: character-count field widths by version bucket. -/
def ModeSizeVersion (version : Nat) : List (Nat × Nat) :=
  if version ≤ 9 then ModeSizeSmall
  else if version ≤ 26 then ModeSizeMedium
  else ModeSizeLarge

/-! ## utils: BitBuffer -/

/-- Go `BitBuffer`: `buffer` is the backing byte slice, `length` the number of
bits appended so far. -/
structure BitBuffer where
  buffer : List Nat
  length : Nat
deriving DecidableEq, Repr

def NewBitBuffer : BitBuffer := ⟨[], 0⟩

/-- Go `BitBuffer.Get`: reads byte `index / 8` with NO check against
`length`; an index beyond the backing slice is a Go panic (`none`), any index
inside the backing slice silently yields a bit. -/
def BitBuffer.getBit (b : BitBuffer) (index : Nat) : Option Bool := do
  let byte ← b.buffer.get? (index / 8)
  pure (((byte >>> (7 - index % 8)) &&& 1) = 1)

/-- Go `BitBuffer.PutBit`: grow the byte slice when needed, or the bit into
position `length % 8` (MSB first), bump `length`. -/
def BitBuffer.putBit (b : BitBuffer) (bit : Bool) : BitBuffer :=
  let bufIndex := b.length / 8
  let buf := if b.buffer.length ≤ bufIndex then b.buffer ++ [0] else b.buffer
  let buf := if bit then buf.set bufIndex ((buf.getD bufIndex 0) ||| (0x80 >>> (b.length % 8)))
             else buf
  ⟨buf, b.length + 1⟩

/-- Go `BitBuffer.Put`: append the low `length` bits of `num`, MSB first. -/
def BitBuffer.put (b : BitBuffer) (num length : Nat) : BitBuffer :=
  (List.range length).foldl
    (fun b i => b.putBit (((num >>> (length - i - 1)) &&& 1) = 1)) b

def BitBuffer.lenBits (b : BitBuffer) : Nat := b.length

/-! ## utils: QRData and segment serialization -/

/-- Go `QRData`: a mode tag and the payload bytes. -/
structure QRData where
  data : List Nat
  mode : Nat
deriving DecidableEq, Repr

/-- Go `alphanumericIndex` via `strings.IndexByte`; Go yields -1 for a byte
outside the alphabet, a case never reached on alphanumeric payloads and
modelled by the list length here. -/
def alphanumericIndex (c : Nat) : Nat :=
  AlphanumericChars.findIdx (fun x => x = c)

/-- Go `bytesToInt`: decimal value of ASCII digit bytes. -/
def bytesToInt (bytes : List Nat) : Nat :=
  bytes.foldl (fun acc b => acc * 10 + (b - 48)) 0

/-- Go `QRData.Write` for numeric mode: 3-digit groups, `NumberLength` bits
for the final short group. -/
def writeNumeric (data : List Nat) (b : BitBuffer) : BitBuffer :=
  (List.range ((data.length + 2) / 3)).foldl
    (fun b i =>
      let chars := (data.drop (3 * i)).take 3
      b.put (bytesToInt chars) (mapGet NumberLength chars.length))
    b

/-- Go `QRData.Write` for alphanumeric mode: pairs as `45*c0 + c1` in 11
bits, a trailing single char in 6 bits. -/
def writeAlphanumeric (data : List Nat) (b : BitBuffer) : BitBuffer :=
  (List.range ((data.length + 1) / 2)).foldl
    (fun b i =>
      let chars := (data.drop (2 * i)).take 2
      match chars with
      | [c0, c1] => b.put (alphanumericIndex c0 * 45 + alphanumericIndex c1) 11
      | [c0] => b.put (alphanumericIndex c0) 6
      | _ => b)
    b

/-- Go `QRData.Write`: dispatch on the mode (byte mode writes 8 bits per
byte). -/
def QRData.write (q : QRData) (b : BitBuffer) : BitBuffer :=
  if q.mode = ModeNumeric then writeNumeric q.data b
  else if q.mode = ModeAlphanumeric then writeAlphanumeric q.data b
  else q.data.foldl (fun b c => b.put c 8) b

/-- Go `LengthInBits` (the panics for a bad mode or version are modelled as
`none`). -/
def LengthInBits (mode version : Nat) : Option Nat :=
  if mode ≠ ModeNumeric ∧ mode ≠ ModeAlphanumeric ∧ mode ≠ ModeByte ∧ mode ≠ ModeKanji then
    none
  else if ¬ CheckVersion version then none
  else some (mapGet (ModeSizeVersion version) mode)

/-! ## utils: CreateBytes (RS interleaving) -/

/-- Data and error-correction codewords of one RS block. -/
structure BlockData where
  dc : List Nat
  ec : List Nat
deriving DecidableEq, Repr

/-- The RS generator accumulation in Go `CreateBytes`: start from the
polynomial `{1}` and multiply by `{1, Gexp i}` for `i < ecCount`, in
order (recursion on the iteration count of the Go loop). -/
def rsGenPoly : Nat → Option GFPoly
  | 0 => NewGFPoly [1] 0
  | k + 1 => do
    let p ← rsGenPoly k
    let g ← Gexp (Int.ofNat k)
    let child ← NewGFPoly [1, g] 0
    p.mul child

/-- Option-valued traversal (the effect of a Go loop whose body can fail). -/
def optionTraverse (f : α → Option β) : List α → Option (List β)
  | [] => some []
  | a :: l => do
    let b ← f a
    let bs ← optionTraverse f l
    pure (b :: bs)

/-- Per-block body of the Go `CreateBytes` loop: slice `dcCount` bytes out of
the buffer at `offset`, build the RS generator, reduce, and read the
error-correction codewords off the remainder (indices left of the remainder
are zero). -/
def blockCompute (buffer : List Nat) (offset : Nat) (block : RSBlock) :
    Option BlockData := do
  let dcCount := block.DataCount
  let ecCount := block.TotalCount - dcCount
  let dc ← optionTraverse
    (fun i => (buffer.get? (i + offset)).map (fun b => 0xff &&& b))
    (List.range dcCount)
  let rsPoly ← rsGenPoly ecCount
  let rawPoly ← NewGFPoly dc (rsPoly.len - 1)
  let modPoly ← rawPoly.mod rsPoly
  let ecLen := rsPoly.len - 1
  let ec := (List.range ecLen).map
    (fun i =>
      let modIndex : Int := Int.ofNat i + (Int.ofNat modPoly.len - Int.ofNat ecLen)
      if 0 ≤ modIndex then modPoly.get modIndex.toNat else 0)
  pure ⟨dc, ec⟩

/-- The first Go `CreateBytes` loop over all blocks, threading the running
`offset` (`offset += dcCount`) and collecting the per-block results in
order. -/
def computeBlocksGo (buffer : List Nat) : Nat → List RSBlock → Option (List BlockData)
  | _, [] => some []
  | offset, block :: rest => do
    let bd ← blockCompute buffer offset block
    let bds ← computeBlocksGo buffer (offset + block.DataCount) rest
    pure (bd :: bds)

def computeBlocks (buffer : List Nat) (blocks : List RSBlock) :
    Option (List BlockData) :=
  computeBlocksGo buffer 0 blocks

/-- Go `CreateBytes`.  The Go function allocates `totalCodewords` output
bytes and fills them with the column-major interleave; `none` models both the
internal `return nil` on a polynomial error and the index panic that an
over-long interleave would hit, and unwritten trailing bytes stay zero. -/
def CreateBytes (buffer : List Nat) (rsBlocks : List RSBlock) :
    Option (List Nat) := do
  let bds ← computeBlocks buffer rsBlocks
  let maxDcCount := rsBlocks.foldl (fun m b => max m b.DataCount) 0
  let maxEcCount := rsBlocks.foldl (fun m b => max m (b.TotalCount - b.DataCount)) 0
  let totalCodewords := rsBlocks.foldl (fun t b => t + b.TotalCount) 0
  let written :=
    (List.range maxDcCount).flatMap (fun i => bds.filterMap (fun bd => bd.dc.get? i))
    ++ (List.range maxEcCount).flatMap (fun i => bds.filterMap (fun bd => bd.ec.get? i))
  if totalCodewords < written.length then none
  else pure (written ++ List.replicate (totalCodewords - written.length) 0)

/-! ## utils: CreateData -/

/-- Go `CreateData`.  The outer `Option` is `none` on a returned error (an
unknown EC level from `RSBlocks`, or the code-length overflow) and on the
`LengthInBits` panic for an invalid mode or version; the inner `Option` is
the byte slice handed back by `CreateBytes`, which is `nil` (`none`) when the
RS computation failed internally. -/
def CreateData (version ec : Nat) (dataList : List QRData) :
    Option (Option (List Nat)) := do
  let buffer ← dataList.foldlM
    (fun (b : BitBuffer) d => do
      let lb ← LengthInBits d.mode version
      pure (d.write ((b.put d.mode 4).put d.data.length lb)))
    NewBitBuffer
  let rsBlocks ← RSBlocks version ec
  let bitLimit := rsBlocks.foldl (fun t b => t + b.DataCount * 8) 0
  if bitLimit < buffer.lenBits then none
  else
    let buffer := (List.range (min (bitLimit - buffer.lenBits) 4)).foldl
      (fun b _ => b.putBit false) buffer
    let delimit := buffer.lenBits % 8
    let buffer := if delimit ≠ 0 then
        (List.range (8 - delimit)).foldl (fun b _ => b.putBit false) buffer
      else buffer
    let bytesToFill := (bitLimit - buffer.lenBits) / 8
    let buffer := (List.range bytesToFill).foldl
      (fun b i => if i % 2 = 0 then b.put PAD0 8 else b.put PAD1 8) buffer
    pure (CreateBytes buffer.buffer rsBlocks)

/-! ## qr: bit-limit table and best fit -/

/-- Go `BIT_LIMIT_TABLE`: `table[ec][v] = 8 * Σ DataCount` for `v ∈ [1,40]`,
with the unused index 0 left at zero. -/
def BIT_LIMIT_TABLE : List (List Nat) :=
  (List.range 4).map
    (fun ec =>
      0 :: (List.range 40).map
        (fun i => ((RSBlocks (i + 1) ec).getD []).foldl
          (fun t b => t + 8 * b.DataCount) 0))

/-- The trial buffer built at the top of Go `BestFit`: mode header, length
field sized by the seed version's bucket, then the payload bits. -/
def seedBuffer (version : Nat) (dataList : List QRData) : BitBuffer :=
  dataList.foldl
    (fun b d =>
      d.write ((b.put d.mode 4).put d.data.length
        (mapGet (ModeSizeVersion version) d.mode)))
    NewBitBuffer

/-- Go `QRCode.BestFit`, called by `Make` with `start = q.Version()`.  The
bisect over `BIT_LIMIT_TABLE` is commented out in the source (marked FIXME),
so the version field is never changed: the trial buffer is built and
discarded, the `version == 41` overflow check can never fire, and the
mode-size recursion guard compares a bucket with itself.  `none` models the
panic on an invalid (including auto = 0) seed version.  `fuel` bounds the
self-recursion, which in fact never recurses. -/
def BestFit : Nat → Nat → List QRData → Option Nat
  | 0, _, _ => none
  | fuel + 1, version, dataList =>
    if ¬ CheckVersion version then none
    else
      let _trial := seedBuffer version dataList
      if version = 41 then none
      else if ModeSizeVersion version = ModeSizeVersion version then some version
      else BestFit fuel version dataList

/-- Go `QRCode.Version`: an auto (0) version triggers `BestFit 0`, which
panics on its version check. -/
def QRVersion (version : Nat) (dataList : List QRData) : Option Nat :=
  if version = 0 then BestFit 2 0 dataList else some version

/-- Stated from the claim: the smallest `v ∈ [1,40]` whose data-bit capacity
`BIT_LIMIT_TABLE[ec][v]` is at least `bits`, and `none` (data overflow) when
even version 40 is insufficient. -/
def claimSmallestFit (ec bits : Nat) : Option Nat :=
  ((List.range 40).map (fun i => i + 1)).find?
    (fun v => bits ≤ (BIT_LIMIT_TABLE.getD ec []).getD v 0)

/-! ## qr: mask functions and best-mask selection -/

/-- Go `MaskFunc`: the eight mask predicates; `none` models the panic on any
other pattern. -/
def MaskFunc (pattern : Nat) : Option (Nat → Nat → Bool) :=
  match pattern with
  | 0 => some (fun i j => (i + j) % 2 == 0)
  | 1 => some (fun i _ => i % 2 == 0)
  | 2 => some (fun _ j => j % 3 == 0)
  | 3 => some (fun i j => (i + j) % 3 == 0)
  | 4 => some (fun i j => (i / 2 + j / 3) % 2 == 0)
  | 5 => some (fun i j => (i * j) % 2 + (i * j) % 3 == 0)
  | 6 => some (fun i j => ((i * j) % 2 + (i * j) % 3) % 2 == 0)
  | 7 => some (fun i j => ((i * j) % 3 + (i + j) % 2) % 2 == 0)
  | _ => none

/-- Go `int(^uint(0) >> 1)`, the 64-bit max int used to seed the best-mask
search. -/
def goMaxInt : Nat := 2 ^ 63 - 1

/-- The loop body of Go `BestMaskPattern` over patterns `0..7`.  `lost p` is
the penalty `LostPoint` computes for the matrix built with mask `p`; the Go
method interleaves `MakeImpl(true, p)` with scoring, which is a function of
`p` alone, abstracted here as `lost`. -/
def bmStep (lost : Nat → Nat) (st : Nat × Nat) (pattern : Nat) : Nat × Nat :=
  if pattern = 0 ∨ lost pattern < st.1 then (lost pattern, pattern) else st

def BestMaskPattern (lost : Nat → Nat) : Nat :=
  ((List.range 8).foldl (bmStep lost) (goMaxInt, 0)).2

/-- The mask dispatch in Go `QRCode.Make`: a zero `maskPattern` runs the
best-mask search, anything else is used directly. -/
def makeChosenMask (maskPattern : Nat) (lost : Nat → Nat) : Nat :=
  if maskPattern = 0 then BestMaskPattern lost else maskPattern

/-! ## qr: module matrix construction -/

/-- The module grid `[][]*bool`: `none` is an UNSET (nil) cell. -/
abbrev MatL : Type := List (List (Option Bool))

/-- Read `q.modules[r][c]`; the outer `none` marks an out-of-range access
(a Go index panic), never hit at the in-range uses below. -/
def mgetQ (m : MatL) (r c : Nat) : Option (Option Bool) :=
  (List.get? m r).bind (fun row => row.get? c)

/-- Write `q.modules[r][c] = &v` (no-op when out of range, never hit). -/
def msetQ (m : MatL) (r c : Nat) (v : Bool) : MatL :=
  List.set m r ((((List.get? m r).getD []).set c (some v)))

def isOutOfBounds (n : Nat) (index : Int) : Bool :=
  decide (index ≤ -1 ∨ (n : Int) ≤ index)

/-- Cell predicate of Go `setModuleValue` (the finder-pattern shape). -/
def setModuleValuePred (r c : Int) : Bool :=
  decide ((0 ≤ r ∧ r ≤ 6 ∧ (c = 0 ∨ c = 6)) ∨
          (0 ≤ c ∧ c ≤ 6 ∧ (r = 0 ∨ r = 6)) ∨
          (2 ≤ r ∧ r ≤ 4 ∧ 2 ≤ c ∧ c ≤ 4))

/-- Go `SetupPositionProbePattern`: offsets `r, c ∈ [-1, 7]`, skipping
out-of-bounds cells. -/
def SetupPositionProbePattern (n : Nat) (row col : Int) (m : MatL) : MatL :=
  (List.range 9).foldl
    (fun m ri =>
      let r : Int := (ri : Int) - 1
      if isOutOfBounds n (row + r) then m
      else
        (List.range 9).foldl
          (fun m ci =>
            let c : Int := (ci : Int) - 1
            if isOutOfBounds n (col + c) then m
            else msetQ m (row + r).toNat (col + c).toNat (setModuleValuePred r c))
          m)
    m

/-- Cell predicate of Go `setPositionAdjustPatternValue` (5x5 ring plus
center). -/
def adjustPatternPred (r c : Int) : Bool :=
  decide (r = -2 ∨ r = 2 ∨ c = -2 ∨ c = 2 ∨ (r = 0 ∧ c = 0))

/-- Go `setPositionAdjustPattern`: unconditionally writes the 5x5 block
centered at `(row, col)`. -/
def setPositionAdjustPattern (m : MatL) (row col : Nat) : MatL :=
  (List.range 5).foldl
    (fun m ri =>
      (List.range 5).foldl
        (fun m ci =>
          let r : Int := (ri : Int) - 2
          let c : Int := (ci : Int) - 2
          msetQ m ((row : Int) + r).toNat (((col : Int) + c)).toNat
            (adjustPatternPred r c))
        m)
    m

/-- Go `SetupPositionAdjustPattern`: all center pairs from the per-version
position table, skipping centers already occupied by a finder. -/
def SetupPositionAdjustPattern (version : Nat) (m : MatL) : MatL :=
  let pos := PatternPosition version
  pos.foldl
    (fun m row =>
      pos.foldl
        (fun m col =>
          match mgetQ m row col with
          | some (some _) => m
          | _ => setPositionAdjustPattern m row col)
        m)
    m

/-- Go `SetupTimingPattern`: row and column 6 between the finders,
alternating, skipping already-set cells. -/
def SetupTimingPattern (n : Nat) (m : MatL) : MatL :=
  let m := (List.range (n - 16)).foldl
    (fun m i =>
      let r := i + 8
      match mgetQ m r 6 with
      | some (some _) => m
      | _ => msetQ m r 6 (r % 2 == 0))
    m
  (List.range (n - 16)).foldl
    (fun m i =>
      let c := i + 8
      match mgetQ m 6 c with
      | some (some _) => m
      | _ => msetQ m 6 c (c % 2 == 0))
    m

/-- Go `SetupTypeInfo`: 15 format bits placed vertically and horizontally
around the finders plus the fixed dark module, from
`data = errorCorrection << 3 | maskPattern`. -/
def SetupTypeInfo (n : Nat) (test : Bool) (ec maskPattern : Nat) (m : MatL) : MatL :=
  let data := (ec <<< 3) ||| maskPattern
  let bits := BCHTypeInfo data
  let m := (List.range 15).foldl
    (fun m i =>
      let mod := !test && (((bits >>> i) &&& 1) == 1)
      if i < 6 then msetQ m i 8 mod
      else if i < 8 then msetQ m (i + 1) 8 mod
      else msetQ m (n - 15 + i) 8 mod)
    m
  let m := (List.range 15).foldl
    (fun m i =>
      let mod := !test && (((bits >>> i) &&& 1) == 1)
      if i < 8 then msetQ m 8 (n - i - 1) mod
      else if i < 9 then msetQ m 8 (15 - i - 1 + 1) mod
      else msetQ m 8 (15 - i - 1) mod)
    m
  msetQ m (n - 8) 8 (!test)

/-- Go `SetupTypeNumber`: 18 version-info bits in the two reserved 6x3
blocks. -/
def SetupTypeNumber (n : Nat) (test : Bool) (version : Nat) (m : MatL) : MatL :=
  let bits := BCHTypeNumber version
  let m := (List.range 18).foldl
    (fun m i =>
      let mod := !test && (((bits >>> i) &&& 1) == 1)
      msetQ m (i / 3) (i % 3 + n - 8 - 3) mod)
    m
  (List.range 18).foldl
    (fun m i =>
      let mod := !test && (((bits >>> i) &&& 1) == 1)
      msetQ m (i % 3 + n - 8 - 3) (i / 3) mod)
    m

/-- The blank matrix of Go `MakeImpl` before type info: three finders, the
alignment patterns, then the timing pattern (the per-version cache stores
exactly this value and is copied before use, so recomputing it is
equivalent). -/
def MakeBlank (version : Nat) : MatL :=
  let n := version * 4 + 17
  let m : MatL := List.replicate n (List.replicate n none)
  let m := SetupPositionProbePattern n 0 0 m
  let m := SetupPositionProbePattern n ((n : Int) - 7) 0 m
  let m := SetupPositionProbePattern n 0 ((n : Int) - 7) m
  let m := SetupPositionAdjustPattern version m
  SetupTimingPattern n m

/-! ## qr: MapData (zig-zag placement) -/

/-- Mutable state of the Go `MapData` loops. -/
structure MDState where
  mat : MatL
  row : Int
  inc : Int
  bitIndex : Int
  byteIndex : Nat

/-- Body of the `for _, c := range colRange` loop in Go `MapData`: at an
UNSET cell take the next bit (zero past the end of the data), apply the mask,
write, and advance the bit cursor. -/
def processCols (data : List Nat) (maskF : Nat → Nat → Bool) (cols : List Int)
    (st : MDState) : MDState :=
  cols.foldl
    (fun st (c : Int) =>
      if c < 0 ∨ st.row < 0 then st
      else
        match mgetQ st.mat st.row.toNat c.toNat with
        | some none =>
          let dark :=
            if st.byteIndex < data.length then
              (((data.getD st.byteIndex 0) >>> st.bitIndex.toNat) &&& 1) == 1
            else false
          let dark := if maskF st.row.toNat c.toNat then !dark else dark
          let mat := msetQ st.mat st.row.toNat c.toNat dark
          let bitIndex := st.bitIndex - 1
          if bitIndex = -1 then ⟨mat, st.row, st.inc, 7, st.byteIndex + 1⟩
          else ⟨mat, st.row, st.inc, bitIndex, st.byteIndex⟩
        | _ => st)
    st

/-- The inner `for {}` loop of Go `MapData`: process the column pair at the
current row, step the row, and on leaving the matrix step back and reverse
direction.  The loop runs exactly `n` times (the row starts on a boundary),
so fuel `n + 1` never runs out. -/
def mapDataSweep (n : Nat) (data : List Nat) (maskF : Nat → Nat → Bool)
    (cols : List Int) : Nat → MDState → MDState
  | 0, st => st
  | fuel + 1, st =>
    let st1 := processCols data maskF cols st
    let newRow := st1.row + st1.inc
    if newRow < 0 ∨ (n : Int) ≤ newRow then
      ⟨st1.mat, st1.row, -st1.inc, st1.bitIndex, st1.byteIndex⟩
    else
      mapDataSweep n data maskF cols fuel
        ⟨st1.mat, newRow, st1.inc, st1.bitIndex, st1.byteIndex⟩

/-- The outer `for col := ...; col > 0; col -= 2` loop of Go `MapData`,
including the `if col <= 6 { col-- }` adjustment applied to the SAME loop
variable before the decrement.  `col` strictly decreases, so fuel `n + 1`
suffices. -/
def mapDataOuter (n : Nat) (data : List Nat) (maskF : Nat → Nat → Bool) :
    Nat → Int → MDState → MDState
  | 0, _, st => st
  | fuel + 1, col, st =>
    if col ≤ 0 then st
    else
      let col := if col ≤ 6 then col - 1 else col
      let st := mapDataSweep n data maskF [col, col - 1] (n + 1) st
      mapDataOuter n data maskF fuel (col - 2) st

/-- Go `MapData`. -/
def MapData (n : Nat) (data : List Nat) (maskF : Nat → Nat → Bool) (m : MatL) :
    MatL :=
  (mapDataOuter n data maskF (n + 1) ((n : Int) - 1)
    ⟨m, (n : Int) - 1, -1, 7, 0⟩).mat

/-- Go `MakeImpl` for a fresh symbol (empty data cache): build the blank,
place type info (and version info from version 7 up), derive the codeword
cache, and map it.  `none` covers the two panics: a `CreateData` error and a
bad mask pattern inside `utils.MaskFunc`; a `nil` byte slice from
`CreateBytes` becomes a zero-length cache, exactly as `make([]int, 0)`
does. -/
def MakeImpl (version ec : Nat) (test : Bool) (maskPattern : Nat)
    (dataList : List QRData) : Option MatL := do
  let n := version * 4 + 17
  let m := MakeBlank version
  let m := SetupTypeInfo n test ec maskPattern m
  let m := if 7 ≤ version then SetupTypeNumber n test version m else m
  let cache ← CreateData version ec dataList
  let bytes := cache.getD []
  let maskF ← MaskFunc maskPattern
  pure (MapData n bytes maskF m)

/-! ## utils: rule-1 penalty (LostPoint level 1)

The Go matrix stores `*bool` pointers and `lostPointLevel1` compares entries
with `==`, which on pointers is ADDRESS equality.  A cell is therefore
modelled as `(alloc, val)` where `alloc` is the allocation identity of the
pointer stored there and `val` the pointed-to colour; Go `==` is `cellPtrEq`
below, and dereferencing reads `val`.  Every builder in `qrcode.go` stores a
fresh `&mod` per cell, so in any matrix this program constructs the `alloc`
components are pairwise distinct. -/

def PCell : Type := Nat × Bool

/-- Go `==` on two `*bool` values: pointer (allocation) equality. -/
def cellPtrEq (a b : PCell) : Bool := a.1 == b.1

/-- One row or column scan of Go `lostPointLevel1`: thread
`(previousColor, length, container)` through the cells, bumping
`container[length]` at each break of a run of at least 5.  The Go code seeds
`previousColor` with the first cell and `length` with 0. -/
def runScanGo (cells : List PCell) (container : List Nat) : List Nat :=
  match cells with
  | [] => container
  | c0 :: _ =>
    let st := cells.foldl
      (fun (st : PCell × Nat × List Nat) c =>
        let (prev, len, container) := st
        if cellPtrEq c prev then (prev, len + 1, container)
        else
          let container := if 5 ≤ len then container.set len (container.getD len 0 + 1)
                           else container
          (c, 1, container))
      (c0, 0, container)
    if 5 ≤ st.2.1 then st.2.2.set st.2.1 (st.2.2.getD st.2.1 0 + 1) else st.2.2

/-- Go `lostPointLevel1`: scan every row and every column, then sum
`container[len] * (len - 2)` over `len ∈ [5, modulesCount]`. -/
def lostPointLevel1 (modules : List (List PCell)) : Nat :=
  let modulesCount := modules.length
  let container := List.replicate (modulesCount + 1) 0
  let container := modules.foldl (fun cont row => runScanGo row cont) container
  let container := (List.range modulesCount).foldl
    (fun cont col => runScanGo (modules.map (fun row => row.getD col (0, false))) cont)
    container
  (List.range (modulesCount + 1)).foldl
    (fun acc len => if 5 ≤ len then acc + container.getD len 0 * (len - 2) else acc)
    0

/-- Maximal runs of consecutive equal COLOURS in a line, stated from the
claim: the lengths of the maximal constant blocks. -/
def runLengthsAux (prev : Bool) (len : Nat) : List Bool → List Nat
  | [] => [len]
  | x :: xs => if x == prev then runLengthsAux prev (len + 1) xs
               else len :: runLengthsAux x 1 xs

def runLengths : List Bool → List Nat
  | [] => []
  | x :: xs => runLengthsAux x 1 xs

/-- Rule-1 contribution of one line per the claim: `len - 2` for every
maximal run of length at least 5, nothing for shorter runs. -/
def rule1Line (line : List Bool) : Nat :=
  (runLengths line).foldl (fun acc len => if 5 ≤ len then acc + (len - 2) else acc) 0

/-- Rule-1 penalty of a square matrix per the claim: summed over all rows and
all columns of the colour grid. -/
def rule1Spec (colors : List (List Bool)) : Nat :=
  (colors.map rule1Line).sum +
    (((List.range colors.length).map
      (fun col => rule1Line (colors.map (fun row => row.getD col false)))).sum)

/-- Colour grid of a pointer-cell matrix (dereference every cell). -/
def colorsOf (modules : List (List PCell)) : List (List Bool) :=
  modules.map (fun row => row.map Prod.snd)

/-! ## utils: optimal data chunks -/

def isDigitByte (b : Nat) : Bool := 48 ≤ b && b ≤ 57

def isAlnumByte (b : Nat) : Bool := AlphanumericChars.contains b

/-- Length of the longest prefix of bytes satisfying `p`. -/
def prefixRunLen (p : Nat → Bool) : List Nat → Nat
  | [] => 0
  | x :: xs => if p x then prefixRunLen p xs + 1 else 0

/-- Leftmost match of the Go regexp `C{min,}` for a byte class `C`
(`FindIndex` semantics: earliest start, then greedy), as a
`(start, end)` pair. -/
def findRunAux (p : Nat → Bool) (minLen : Nat) : List Nat → Nat → Option (Nat × Nat)
  | [], _ => none
  | x :: xs, pos =>
    let run := prefixRunLen p (x :: xs)
    if minLen ≤ run then some (pos, pos + run)
    else findRunAux p minLen xs (pos + 1)

def findRun (p : Nat → Bool) (minLen : Nat) (data : List Nat) : Option (Nat × Nat) :=
  findRunAux p minLen data 0

/-- Anchored Go regexp `^C+$`: the whole (non-empty) input or nothing, used
by `OptimalDataChunks` for inputs no longer than `minimum`. -/
def findAnchored (p : Nat → Bool) (data : List Nat) : Option (Nat × Nat) :=
  if data ≠ [] ∧ data.all p then some (0, data.length) else none

/-- The numeric loop of Go `optimalSplit`: while a numeric match exists, emit
the BYTE prefix (when non-empty) and the NUMERIC run, and continue on the
tail.  Returns the segments so far and the unconsumed tail.  Every match is
non-empty so fuel `data.length + 1` suffices. -/
def optimalSplitNum (findNum : List Nat → Option (Nat × Nat)) :
    Nat → List Nat → List QRData × List Nat
  | 0, data => ([], data)
  | fuel + 1, data =>
    if data.isEmpty then ([], data)
    else
      match findNum data with
      | none => ([], data)
      | some (s, e) =>
        let pre : List QRData := if 0 < s then [⟨data.take s, ModeByte⟩] else []
        let numSeg : QRData := ⟨(data.drop s).take (e - s), ModeNumeric⟩
        let (rest, remaining) := optimalSplitNum findNum fuel (data.drop e)
        (pre ++ numSeg :: rest, remaining)

/-- Go `optimalSplit`: the numeric loop, then AT MOST ONE alphanumeric match
on what remains.  When an alphanumeric match is found the Go code advances
`data` past it and returns without ever appending the tail, so bytes after
the first alphanumeric run are dropped. -/
def optimalSplit (findNum findAlpha : List Nat → Option (Nat × Nat))
    (data : List Nat) : List QRData :=
  let (segs, data) := optimalSplitNum findNum (data.length + 1) data
  if data.isEmpty then segs
  else
    match findAlpha data with
    | some (s, e) =>
      let pre : List QRData := if 0 < s then [⟨data.take s, ModeByte⟩] else []
      let _dropped := data.drop e
      segs ++ pre ++ [⟨(data.drop s).take (e - s), ModeAlphanumeric⟩]
    | none => segs ++ [⟨data, ModeByte⟩]

/-- Go `OptimalDataChunks` (a non-positive `minimum` becomes 4; inputs no
longer than `minimum` use the anchored whole-string patterns).  The Go
function's error result is always nil and is omitted. -/
def OptimalDataChunks (data : List Nat) (minimum : Nat) : List QRData :=
  let minimum := if minimum = 0 then 4 else minimum
  if data.length ≤ minimum then
    optimalSplit (findAnchored isDigitByte) (findAnchored isAlnumByte) data
  else
    optimalSplit (findRun isDigitByte minimum) (findRun isAlnumByte minimum) data

/-! ## mask application (claim C5) -/

/-- Index-aware map used to state mask application over a whole matrix. -/
def mapWithIdx (f : Nat → α → β) : Nat → List α → List β
  | _, [] => []
  | i, x :: xs => f i x :: mapWithIdx f (i + 1) xs

/-- Apply a mask predicate to a colour matrix: flip the cell at `(i, j)`
exactly when the predicate holds there, as `MapData` does via
`if maskFunc(row, c) { dark = !dark }`. -/
def applyMask (maskF : Nat → Nat → Bool) (m : List (List Bool)) : List (List Bool) :=
  mapWithIdx (fun i row => mapWithIdx (fun j v => if maskF i j then !v else v) 0 row) 0 m

/-! ## claim-side definitions and concrete inputs -/

/-- Stated from the claim (ISO/IEC 18004): the encoded EC bits `L=01, M=00,
Q=11, H=10` for the internal numbering `L=0, M=1, Q=2, H=3`. -/
def ecEncoded (ec : Nat) : Nat :=
  if ec = ERROR_CORRECT_L then 1
  else if ec = ERROR_CORRECT_M then 0
  else if ec = ERROR_CORRECT_Q then 3
  else 2

/-- The 15 format bits Go `SetupTypeInfo` places: `BCHTypeInfo` of
`errorCorrection << 3 | maskPattern` (the symbol's raw EC field). -/
def setupTypeInfoBits (ec maskPattern : Nat) : Nat :=
  BCHTypeInfo ((ec <<< 3) ||| maskPattern)

/-- The 15 format bits the claim requires: `BCHTypeInfo` of the standard's
encoded EC bits combined with the mask pattern. -/
def claimTypeInfoBits (ec maskPattern : Nat) : Nat :=
  BCHTypeInfo ((ecEncoded ec <<< 3) ||| maskPattern)

/-- A 20-byte BYTE-mode segment (20 repetitions of `A`): its encoded size at
version 1 is `4 + 8 + 160 = 172` bits, above the version-1 L capacity of 152
bits. -/
def qrDataTwentyBytes : QRData := ⟨List.replicate 20 65, ModeByte⟩

/-- A fully dark 5x5 module matrix whose cells hold pairwise distinct
pointer allocations, the shape every matrix built by `qrcode.go` has. -/
def darkMat5 : List (List PCell) :=
  (List.range 5).map (fun i => (List.range 5).map (fun j => (5 * i + j, true)))

/-- The bytes of `ABCDEFxyz`: a 6-long alphanumeric run followed by three
bytes outside the alphanumeric alphabet. -/
def abcdefxyz : List Nat := [65, 66, 67, 68, 69, 70, 120, 121, 122]

/-- A penalty profile under which mask 1 scores strictly best. -/
def lostMaskOneBest (p : Nat) : Nat := if p = 1 then 0 else 10

/-- Stated from the claim: emit column `j` of every row in order, for `j` up
to the maximum row length, taking only rows that still have a column `j`. -/
def columnMajorSpec (rows : List (List Nat)) : List Nat :=
  (List.range (rows.foldl (fun m r => max m r.length) 0)).flatMap
    (fun j => rows.filterMap (fun row => row.get? j))

/-- The cell-level mask transform of the claim (and of `MapData`): flip the
value exactly when the mask predicate holds at `(i, j)`. -/
def maskFlip (f : Nat → Nat → Bool) (i j : Nat) (v : Bool) : Bool :=
  if f i j then !v else v

/-- Mask predicate 0, used to instantiate the involution theorem. -/
def mask0fn : Nat → Nat → Bool := fun i j => (i + j) % 2 == 0

/-! ## Theorems for the claims -/

set_option maxRecDepth 1000000

/-- C1: refuted as stated - `BestFit` never searches for the smallest
fitting version and never reports a data overflow.  At seed version 1 with a
20-byte segment the encoded stream needs 172 bits, above the 152-bit
capacity `BIT_LIMIT_TABLE[L][1]`, and the smallest adequate version per the
claim is 2; yet `BestFit` returns version 1 unchanged (the table bisect is
commented out in the source), and an auto (0) version makes it panic on its
own version check instead of fitting. -/
theorem C1_bestFit_ignores_capacity :
    (seedBuffer 1 [qrDataTwentyBytes]).lenBits = 172 ∧
    (BIT_LIMIT_TABLE.getD ERROR_CORRECT_L []).getD 1 0 = 152 ∧
    BestFit 2 1 [qrDataTwentyBytes] = some 1 ∧
    claimSmallestFit ERROR_CORRECT_L 172 = some 2 ∧
    BestFit 2 0 [qrDataTwentyBytes] = none := by
  decide

/-- C2: refuted as stated - `SetupTypeInfo` feeds the INTERNAL numbering
`L=0, M=1, Q=2, H=3` (shifted left by 3) into the BCH computation, not the
standard's encoded EC bits `L=01, M=00, Q=11, H=10`; the two 15-bit format
words differ for every EC level and mask pattern. -/
theorem C2_typeinfo_uses_internal_numbering :
    ((List.range 4).all (fun ec =>
      (List.range 8).all (fun mp =>
        setupTypeInfoBits ec mp != claimTypeInfoBits ec mp))) = true := by
  decide

/-- C4: refuted as stated - `lostPointLevel1` compares `*bool` cells with
`==`, which is pointer equality, so on any matrix whose cells are distinct
allocations (as every matrix this program builds is) every run it sees has
length 1 and the rule-1 penalty is 0; the claim's rule demands
`run_length - 2` per maximal colour run of length at least 5, which on the
all-dark 5x5 matrix is 3 per row and column, 30 in total. -/
theorem C4_rule1_pointer_comparison :
    lostPointLevel1 darkMat5 = 0 ∧ rule1Spec (colorsOf darkMat5) = 30 := by
  decide

/-- C6 counterexample: a buffer holding a single appended bit (`Len = 1`)
answers `Get 5` with `some false` - a silent bit value, not an error, even
though `5 ≥ Len`. -/
theorem C6_counterexample :
    (NewBitBuffer.putBit true).getBit 5 = some false ∧
    (NewBitBuffer.putBit true).lenBits = 1 := by
  decide

/-- C6 (amended): `Get i` is an error exactly when byte `i / 8` falls
outside the backing byte slice; an index at or beyond `Len` that still lands
in the last allocated byte silently returns the padding bit. -/
theorem C6_get_error_iff (b : BitBuffer) (i : Nat) :
    b.getBit i = none ↔ b.buffer.length ≤ i / 8 := by
  unfold BitBuffer.getBit
  rw [← List.get?_eq_none]
  cases h : b.buffer.get? (i / 8) <;> simp [h]

/-- C7: refuted as stated - on input `ABCDEFxyz` with minimum 4 the chunker
returns only the ALPHANUMERIC segment `ABCDEF` and silently drops the
trailing bytes `xyz`: the concatenated payloads do not reproduce the
input. -/
theorem C7_chunker_drops_tail :
    OptimalDataChunks abcdefxyz 4 = [⟨[65, 66, 67, 68, 69, 70], ModeAlphanumeric⟩] ∧
    (OptimalDataChunks abcdefxyz 4).flatMap QRData.data ≠ abcdefxyz := by
  decide

/-- C8: refuted as stated - after a completed build at version 1 (mask 1,
empty segment list) the 21x21 matrix still has UNSET cells: the Go zig-zag
loop decrements its own loop variable at `col <= 6` and then subtracts 2
more, so the column pairs after `(8,7)` are `(5,4)` and `(2,1)`, and columns
3 and 0 are never visited; cell `(9,0)` stays `nil`. -/
theorem C8_unset_cell_after_build :
    (MakeImpl 1 ERROR_CORRECT_L false 1 []).map
      (fun m => (m.length, (m.getD 9 []).length, mgetQ m 9 0)) =
      some (21, 21, some none) := by
  decide

/-- C9: refuted as stated - when the segment stream exceeds the capacity of
the chosen version (20 bytes at version 1, EC L), `CreateData` does return
an error, but `MakeImpl` turns it into a panic (`panic(err)`) instead of
returning it, after `modules` and `modulesCount` were already overwritten;
the build is not transactional and nothing is returned to the caller. -/
theorem C9_build_panics_on_overflow :
    CreateData 1 ERROR_CORRECT_L [qrDataTwentyBytes] = none ∧
    MakeImpl 1 ERROR_CORRECT_L false 1 [qrDataTwentyBytes] = none := by
  decide

/-- C10 counterexample: on the single block `(total 2, data 1)` with the
one data codeword 0, the RS reduction hits `glog 0`, `CreateBytes` returns
nil (`none`), and no byte stream of length `Σ TotalCount = 2` exists. -/
theorem C10_counterexample :
    CreateBytes [0] [⟨2, 1⟩] = none ∧
    ([(⟨2, 1⟩ : RSBlock)].foldl (fun t b => t + b.TotalCount) 0) = 2 := by
  decide

/-- C3 counterexample: a configured mask pattern 0 is NOT used directly -
`Make` treats 0 as the auto marker and runs the best-mask search, which here
selects mask 1. -/
theorem C3_counterexample : makeChosenMask 0 lostMaskOneBest ≠ 0 := by
  decide

/-! ## C5: mask involution -/

theorem maskFlip_involutive (f : Nat → Nat → Bool) (i j : Nat) (v : Bool) :
    maskFlip f i j (maskFlip f i j v) = v := by
  cases h : f i j <;> simp [maskFlip, h]

theorem mapWithIdx_row_involutive (f : Nat → Nat → Bool) (i : Nat) (row : List Bool) :
    ∀ j, mapWithIdx (fun j v => if f i j then !v else v) j
      (mapWithIdx (fun j v => if f i j then !v else v) j row) = row := by
  induction row with
  | nil => intro j; rfl
  | cons x xs ih =>
    intro j
    simp only [mapWithIdx]
    refine congrArg₂ _ ?_ (ih (j + 1))
    cases h : f i j <;> simp [h]

theorem applyMask_involutive_from (f : Nat → Nat → Bool) (m : List (List Bool)) :
    ∀ i, mapWithIdx (fun i row => mapWithIdx (fun j v => if f i j then !v else v) 0 row) i
      (mapWithIdx (fun i row => mapWithIdx (fun j v => if f i j then !v else v) 0 row) i m) = m := by
  induction m with
  | nil => intro i; rfl
  | cons row rest ih =>
    intro i
    simp only [mapWithIdx]
    exact congrArg₂ _ (mapWithIdx_row_involutive f i row 0) (ih (i + 1))

/-- C5: for every mask pattern in [0,7] (with its predicate as produced by
`MaskFunc`), flipping a cell value per the predicate twice returns the
original value at every position, and applying the mask to a whole matrix
twice returns the original matrix. -/
theorem C5_mask_involutive (p : Nat) (hp : p < 8) (f : Nat → Nat → Bool)
    (hf : MaskFunc p = some f) (i j : Nat) (v : Bool) (m : List (List Bool)) :
    maskFlip f i j (maskFlip f i j v) = v ∧ applyMask f (applyMask f m) = m :=
  ⟨maskFlip_involutive f i j v, applyMask_involutive_from f m 0⟩

theorem C5_mask_involutive_witness :
    maskFlip mask0fn 0 1 (maskFlip mask0fn 0 1 true) = true ∧
    applyMask mask0fn (applyMask mask0fn [[true, false], [false, true]]) =
      [[true, false], [false, true]] :=
  C5_mask_involutive 0 (by decide) mask0fn rfl 0 1 true [[true, false], [false, true]]

/-! ## C3: mask selection -/

/-- Invariant of the Go `BestMaskPattern` loop over the remaining patterns
`k, k+1, ..., 7` (all non-zero), from a state whose penalty matches its
pattern and whose pattern is below `k`: the result still matches, only
improves, is minimal over the remaining patterns, beats every remaining
pattern before the chosen one strictly, and strictly improved if it
changed. -/
theorem bmLoop_spec (lost : Nat → Nat) :
    ∀ (len k : Nat) (st r : Nat × Nat), st.1 = lost st.2 → st.2 < k → 1 ≤ k →
      k + len = 8 → (List.range' k len).foldl (bmStep lost) st = r →
      r.1 = lost r.2 ∧ (r.2 = st.2 ∨ (k ≤ r.2 ∧ r.2 < 8)) ∧
      (∀ q, k ≤ q → q < 8 → r.1 ≤ lost q) ∧ r.1 ≤ st.1 ∧
      (∀ q, k ≤ q → q < r.2 → r.1 < lost q) ∧
      (r.2 ≠ st.2 → r.1 < st.1) := by
  intro len
  induction len with
  | zero =>
    intro k st r hst hlt _ hk8 hr
    simp only [List.range', List.foldl_nil] at hr
    subst hr
    exact ⟨hst, Or.inl rfl, fun q hq hq8 => by omega, le_refl _,
      fun q hq hqr => by omega, fun hne => absurd rfl hne⟩
  | succ len ih =>
    intro k st r hst hlt hk1 hk8 hr
    rw [List.range'_succ, List.foldl_cons] at hr
    by_cases himp : lost k < st.1
    · have hstep : bmStep lost st k = (lost k, k) := by
        rw [bmStep, if_pos (Or.inr himp)]
      rw [hstep] at hr
      obtain ⟨ha, hb, hc, hd, he, hf⟩ :=
        ih (k + 1) (lost k, k) r rfl (by omega) (by omega) (by omega) hr
      refine ⟨ha, ?_, ?_, by omega, ?_, ?_⟩
      · rcases hb with hb | hb
        · exact Or.inr (by omega)
        · exact Or.inr (by omega)
      · intro q hq hq8
        rcases Nat.eq_or_lt_of_le hq with hq | hq
        · subst hq; exact hd
        · exact hc q (by omega) hq8
      · intro q hq hqr
        rcases Nat.eq_or_lt_of_le hq with hq | hq
        · subst hq
          have : r.2 ≠ k := by omega
          have := hf this
          omega
        · exact he q (by omega) hqr
      · intro _
        omega
    · have hstep : bmStep lost st k = st := by
        rw [bmStep, if_neg]
        push_neg
        exact ⟨by omega, not_lt.mp himp⟩
      rw [hstep] at hr
      obtain ⟨ha, hb, hc, hd, he, hf⟩ :=
        ih (k + 1) st r hst (by omega) (by omega) (by omega) hr
      refine ⟨ha, ?_, ?_, hd, ?_, hf⟩
      · rcases hb with hb | hb
        · exact Or.inl hb
        · exact Or.inr (by omega)
      · intro q hq hq8
        rcases Nat.eq_or_lt_of_le hq with hq | hq
        · subst hq; omega
        · exact hc q (by omega) hq8
      · intro q hq hqr
        rcases Nat.eq_or_lt_of_le hq with hq | hq
        · subst hq
          have : r.2 ≠ st.2 := by omega
          have := hf this
          omega
        · exact he q (by omega) hqr

/-- C3 (amended): a user-configured mask pattern in {1..7} is used directly
(no penalty scoring), while 0 is the auto marker: `Make` then runs the
best-mask loop, which returns the pattern with minimum penalty, ties
resolved by the lowest index. -/
theorem C3_mask_selection (lost : Nat → Nat) (p : Nat) :
    (1 ≤ p → p ≤ 7 → makeChosenMask p lost = p) ∧
    (makeChosenMask 0 lost = BestMaskPattern lost ∧
     BestMaskPattern lost < 8 ∧
     (∀ q, q < 8 → lost (BestMaskPattern lost) ≤ lost q) ∧
     (∀ q, q < BestMaskPattern lost → lost (BestMaskPattern lost) < lost q)) := by
  have h0 : List.range 8 = 0 :: List.range' 1 7 := by
    rw [List.range_eq_range']
    rfl
  have hstep0 : bmStep lost (goMaxInt, 0) 0 = (lost 0, 0) := by
    rw [bmStep, if_pos (Or.inl rfl)]
  have hBdef : BestMaskPattern lost =
      ((List.range' 1 7).foldl (bmStep lost) (lost 0, 0)).2 := by
    unfold BestMaskPattern
    rw [h0, List.foldl_cons, hstep0]
  obtain ⟨ha, hb, hc, hd, he, hf⟩ :=
    bmLoop_spec lost 7 1 (lost 0, 0) ((List.range' 1 7).foldl (bmStep lost) (lost 0, 0))
      rfl (by omega) (by omega) (by omega) rfl
  rw [hBdef, ← ha]
  refine ⟨fun h1 _ => ?_, ?_, by omega, ?_, ?_⟩
  · rw [makeChosenMask, if_neg (by omega)]
  · rw [makeChosenMask, if_pos rfl, hBdef]
  · intro q hq
    rcases Nat.eq_zero_or_pos q with hq0 | hq0
    · subst hq0; exact hd
    · exact hc q (by omega) hq
  · intro q hq
    rcases Nat.eq_zero_or_pos q with hq0 | hq0
    · subst hq0
      have : ((List.range' 1 7).foldl (bmStep lost) (lost 0, 0)).2 ≠ 0 := by omega
      have := hf this
      omega
    · exact he q (by omega) hq

/-! ## C10: Reed-Solomon interleaving -/

theorem expTable_all_ne_zero : EXP_TABLE.all (fun x => x != 0) = true := by decide

theorem Gexp_ne_zero (n : Int) (v : Nat) (h : Gexp n = some v) : v ≠ 0 := by
  unfold Gexp at h
  split at h
  · exact absurd h (by simp)
  · have hm := List.get?_mem h
    simpa using List.all_eq_true.mp expTable_all_ne_zero v hm

theorem mulStep_none (a b : GFPoly) (p : Nat × Nat) : mulStep a b none p = none := rfl

theorem foldl_mulStep_none (a b : GFPoly) (ps : List (Nat × Nat)) :
    ps.foldl (mulStep a b) none = none := by
  induction ps with
  | nil => rfl
  | cons p ps ih => rw [List.foldl_cons, mulStep_none, ih]

theorem foldl_mulStep_cons_some (a b : GFPoly) (p : Nat × Nat) (ps : List (Nat × Nat))
    (num num2 : List Nat)
    (h : (p :: ps).foldl (mulStep a b) (some num) = some num2) :
    ∃ num1, mulStep a b (some num) p = some num1 ∧
      ps.foldl (mulStep a b) (some num1) = some num2 := by
  rw [List.foldl_cons] at h
  cases hstep : mulStep a b (some num) p with
  | none => rw [hstep, foldl_mulStep_none] at h; exact absurd h (by simp)
  | some num1 => exact ⟨num1, rfl, by rwa [hstep] at h⟩

theorem mulStep_some_shape (a b : GFPoly) (num : List Nat) (p : Nat × Nat) (num1 : List Nat)
    (h : mulStep a b (some num) p = some num1) :
    ∃ g, num1 = num.set (p.1 + p.2) ((num.getD (p.1 + p.2) 0) ^^^ g) := by
  unfold mulStep at h
  simp only [Option.bind_eq_bind, Option.some_bind] at h
  rw [Option.bind_eq_some] at h
  obtain ⟨la, _, h⟩ := h
  rw [Option.bind_eq_some] at h
  obtain ⟨lb, _, h⟩ := h
  rw [Option.bind_eq_some] at h
  obtain ⟨g, _, h⟩ := h
  exact ⟨g, by simpa using h.symm⟩

theorem foldl_mulStep_preserves (a b : GFPoly) :
    ∀ (ps : List (Nat × Nat)) (num num2 : List Nat),
      (∀ p ∈ ps, p.1 + p.2 ≠ 0) →
      ps.foldl (mulStep a b) (some num) = some num2 →
      num2.get? 0 = num.get? 0 ∧ num2.length = num.length := by
  intro ps
  induction ps with
  | nil =>
    intro num num2 _ h
    simp only [List.foldl_nil, Option.some.injEq] at h
    subst h
    exact ⟨rfl, rfl⟩
  | cons p ps ih =>
    intro num num2 hmem h
    obtain ⟨num1, hstep, hrest⟩ := foldl_mulStep_cons_some a b p ps num num2 h
    obtain ⟨g, rfl⟩ := mulStep_some_shape a b num p num1 hstep
    have hp0 : p.1 + p.2 ≠ 0 := hmem p (List.mem_cons_self p ps)
    obtain ⟨hh, hl⟩ := ih _ num2 (fun q hq => hmem q (List.mem_cons_of_mem p hq)) hrest
    constructor
    · rw [hh, List.get?_set_ne _ _ hp0]
    · rw [hl, List.length_set]

theorem rangePairs_shape (A B : Nat) :
    ∃ rest, (List.range (A + 1)).flatMap
        (fun i => (List.range (B + 1)).map (fun j => (i, j))) = (0, 0) :: rest ∧
      ∀ p ∈ rest, p.1 + p.2 ≠ 0 := by
  rw [List.range_succ_eq_map A, List.flatMap_cons, List.range_succ_eq_map B,
    List.map_cons]
  refine ⟨_, rfl, ?_⟩
  intro p hp
  rcases List.mem_append.mp hp with hp | hp
  · obtain ⟨j, hj, rfl⟩ := List.mem_map.mp hp
    obtain ⟨j0, _, rfl⟩ := List.mem_map.mp hj
    simp [Nat.succ_ne_zero]
  · obtain ⟨i, hi, hmap⟩ := List.mem_flatMap.mp hp
    obtain ⟨i0, _, rfl⟩ := List.mem_map.mp hi
    obtain ⟨j, _, rfl⟩ := List.mem_map.mp hmap
    simp [Nat.succ_ne_zero]

theorem get?_zero_pos {α : Type} (l : List α) (x : α) (h : l.get? 0 = some x) :
    0 < l.length := by
  cases l with
  | nil => exact absurd h (by simp)
  | cons a t => simp

theorem NewGFPoly_of_head_one (num : List Nat) (c : GFPoly)
    (hh : num.get? 0 = some 1) (h : NewGFPoly num 0 = some c) : c.num = num := by
  cases num with
  | nil => exact absurd hh (by simp)
  | cons x t =>
    have hx : x = 1 := by simpa using hh
    subst hx
    unfold NewGFPoly at h
    simp only [List.isEmpty_cons, Bool.false_eq_true, if_false] at h
    rw [List.findIdx_cons] at h
    simp at h
    rw [← h]

theorem GFPoly_mul_monic (a b c : GFPoly)
    (ha : a.num.get? 0 = some 1) (hb : b.num.get? 0 = some 1)
    (h : a.mul b = some c) :
    c.num.length = a.len + b.len - 1 ∧ c.num.get? 0 = some 1 := by
  have haPos : 0 < a.num.length := get?_zero_pos a.num 1 ha
  have hbPos : 0 < b.num.length := get?_zero_pos b.num 1 hb
  obtain ⟨A, hA⟩ : ∃ A, a.len = A + 1 := ⟨a.len - 1, by unfold GFPoly.len; omega⟩
  obtain ⟨B, hB⟩ : ∃ B, b.len = B + 1 := ⟨b.len - 1, by unfold GFPoly.len; omega⟩
  unfold GFPoly.mul at h
  simp only [Option.bind_eq_bind] at h
  rw [Option.bind_eq_some] at h
  obtain ⟨num2, hfold, hnew⟩ := h
  obtain ⟨rest, hpairs, hrest⟩ := rangePairs_shape A B
  rw [hA, hB, hpairs] at hfold
  have hlen1 : A + 1 + (B + 1) - 1 = A + B + 1 := by omega
  rw [hlen1] at hfold
  obtain ⟨num1, hstep, hfold2⟩ := foldl_mulStep_cons_some a b (0, 0) rest _ num2 hfold
  have haget : a.get 0 = 1 := by
    unfold GFPoly.get
    rw [List.getD_eq_getD_get?, ha]
    rfl
  have hbget : b.get 0 = 1 := by
    unfold GFPoly.get
    rw [List.getD_eq_getD_get?, hb]
    rfl
  have hglog1 : glog 1 = some 0 := by decide
  have hgexp0 : Gexp (Int.ofNat (0 + 0)) = some 1 := by decide
  have hstepval : num1 = (List.replicate (A + B + 1) 0).set 0
      ((List.replicate (A + B + 1) 0).getD 0 0 ^^^ 1) := by
    unfold mulStep at hstep
    rw [haget, hbget] at hstep
    rw [hglog1] at hstep
    simp only [Option.bind_eq_bind, Option.some_bind] at hstep
    rw [hgexp0] at hstep
    simp only [Option.some_bind] at hstep
    injection hstep with hstep
    simp only [Nat.add_zero] at hstep
    exact hstep.symm
  have hgetD0 : (List.replicate (A + B + 1) 0).getD 0 0 = 0 := by
    rw [List.replicate_succ]
    rfl
  have hnum1len : num1.length = A + B + 1 := by
    rw [hstepval, List.length_set, List.length_replicate]
  have hnum1head : num1.get? 0 = some 1 := by
    rw [hstepval, hgetD0]
    rw [List.get?_set_eq_of_lt (0 ^^^ 1) (by rw [List.length_replicate]; omega)]
    rfl
  obtain ⟨hh2, hl2⟩ := foldl_mulStep_preserves a b rest num1 num2 hrest hfold2
  have hnum2head : num2.get? 0 = some 1 := by rw [hh2, hnum1head]
  have hnum2len : num2.length = A + B + 1 := by rw [hl2, hnum1len]
  have hcnum := NewGFPoly_of_head_one num2 c hnum2head hnew
  rw [hcnum]
  exact ⟨by omega, hnum2head⟩

theorem rsGenPoly_spec : ∀ (k : Nat) (g : GFPoly), rsGenPoly k = some g →
    g.num.length = k + 1 ∧ g.num.get? 0 = some 1 := by
  intro k
  induction k with
  | zero =>
    intro g h
    have h0 : rsGenPoly 0 = some ⟨[1]⟩ := rfl
    rw [h0] at h
    injection h with h
    rw [← h]
    exact ⟨rfl, rfl⟩
  | succ k ih =>
    intro g h
    unfold rsGenPoly at h
    simp only [Option.bind_eq_bind] at h
    rw [Option.bind_eq_some] at h
    obtain ⟨g0, hg0, h⟩ := h
    rw [Option.bind_eq_some] at h
    obtain ⟨gv, hgv, h⟩ := h
    rw [Option.bind_eq_some] at h
    obtain ⟨child, hchild, hmul⟩ := h
    have hchildnum : child.num = [1, gv] := by
      unfold NewGFPoly at hchild
      simp at hchild
      rw [← hchild]
      simp [List.findIdx_cons]
    obtain ⟨ih1, ih2⟩ := ih g0 hg0
    obtain ⟨hlen, hhead⟩ := GFPoly_mul_monic g0 child g ih2
      (by rw [hchildnum]; rfl) hmul
    refine ⟨?_, hhead⟩
    rw [hlen]
    unfold GFPoly.len
    rw [ih1, hchildnum]
    rfl

theorem optionTraverse_length {α β : Type} (f : α → Option β) :
    ∀ (l : List α) (l2 : List β), optionTraverse f l = some l2 → l2.length = l.length := by
  intro l
  induction l with
  | nil =>
    intro l2 h
    simp only [optionTraverse, Option.some.injEq] at h
    rw [← h]
    rfl
  | cons a l ih =>
    intro l2 h
    unfold optionTraverse at h
    simp only [Option.bind_eq_bind] at h
    rw [Option.bind_eq_some] at h
    obtain ⟨b, _, h⟩ := h
    rw [Option.bind_eq_some] at h
    obtain ⟨bs, hbs, h⟩ := h
    simp only [Option.pure_def, Option.some.injEq] at h
    rw [← h]
    simp [ih bs hbs]

theorem blockCompute_spec (buffer : List Nat) (offset : Nat) (block : RSBlock)
    (bd : BlockData) (h : blockCompute buffer offset block = some bd) :
    bd.dc.length = block.DataCount ∧
      bd.ec.length = block.TotalCount - block.DataCount := by
  unfold blockCompute at h
  simp only [Option.bind_eq_bind] at h
  rw [Option.bind_eq_some] at h
  obtain ⟨dc, hdc, h⟩ := h
  rw [Option.bind_eq_some] at h
  obtain ⟨rsPoly, hrs, h⟩ := h
  rw [Option.bind_eq_some] at h
  obtain ⟨rawPoly, _, h⟩ := h
  rw [Option.bind_eq_some] at h
  obtain ⟨modPoly, _, h⟩ := h
  simp only [Option.pure_def, Option.some.injEq] at h
  rw [← h]
  have hdclen := optionTraverse_length _ _ dc hdc
  obtain ⟨hrslen, _⟩ := rsGenPoly_spec _ rsPoly hrs
  constructor
  · simpa using hdclen
  · simp only [List.length_map, List.length_range, GFPoly.len]
    rw [hrslen]
    omega

theorem computeBlocksGo_spec (buffer : List Nat) :
    ∀ (blocks : List RSBlock) (offset : Nat) (bds : List BlockData),
      computeBlocksGo buffer offset blocks = some bds →
      List.Forall₂ (fun (bd : BlockData) (b : RSBlock) =>
        bd.dc.length = b.DataCount ∧ bd.ec.length = b.TotalCount - b.DataCount)
        bds blocks := by
  intro blocks
  induction blocks with
  | nil =>
    intro offset bds h
    simp only [computeBlocksGo, Option.some.injEq] at h
    rw [← h]
    exact List.Forall₂.nil
  | cons b rest ih =>
    intro offset bds h
    unfold computeBlocksGo at h
    simp only [Option.bind_eq_bind] at h
    rw [Option.bind_eq_some] at h
    obtain ⟨bd, hbd, h⟩ := h
    rw [Option.bind_eq_some] at h
    obtain ⟨bds2, hbds2, h⟩ := h
    simp only [Option.pure_def, Option.some.injEq] at h
    rw [← h]
    exact List.Forall₂.cons (blockCompute_spec buffer offset b bd hbd) (ih _ _ hbds2)

theorem range_flatMap_get?_toList {α : Type} (r : List α) :
    ∀ M, (List.range M).flatMap (fun j => (r.get? j).toList) = r.take M := by
  intro M
  induction M with
  | zero => rfl
  | succ M ih =>
    rw [List.range_succ, List.flatMap_append, ih, List.take_succ]
    simp [List.get?_eq_getElem?]

theorem flatMap_append_perm {α β : Type} (l : List α) (f g : α → List β) :
    (l.flatMap (fun x => f x ++ g x)).Perm (l.flatMap f ++ l.flatMap g) := by
  induction l with
  | nil => simp
  | cons a l ih =>
    simp only [List.flatMap_cons, List.append_assoc]
    refine ((ih.append_left (g a)).append_left (f a)).trans ?_
    exact (List.perm_append_comm_assoc (g a) (l.flatMap f) (l.flatMap g)).append_left (f a)

theorem filterMap_cons_toList {α β : Type} (f : α → Option β) (a : α) (l : List α) :
    List.filterMap f (a :: l) = (f a).toList ++ List.filterMap f l := by
  cases h : f a <;> simp [List.filterMap_cons, h]

theorem colMajor_perm_flatten {α : Type} :
    ∀ (rows : List (List α)) (M : Nat), (∀ r ∈ rows, r.length ≤ M) →
      ((List.range M).flatMap (fun j => rows.filterMap (fun row => row.get? j))).Perm
        rows.flatten := by
  intro rows
  induction rows with
  | nil =>
    intro M _
    simp
  | cons r rest ih =>
    intro M hM
    have hstep : ∀ j, List.filterMap (fun row => row.get? j) (r :: rest) =
        (r.get? j).toList ++ rest.filterMap (fun row => row.get? j) :=
      fun j => filterMap_cons_toList (fun row => row.get? j) r rest
    simp only [hstep]
    refine (flatMap_append_perm (List.range M) _ _).trans ?_
    rw [range_flatMap_get?_toList r M, List.take_of_length_le (hM r (by simp)),
      List.flatten_cons]
    exact (ih M (fun x hx => hM x (List.mem_cons_of_mem r hx))).append_left r

theorem foldl_max_le {α : Type} (f : α → Nat) :
    ∀ (l : List α) (init : Nat), init ≤ l.foldl (fun m x => max m (f x)) init := by
  intro l
  induction l with
  | nil => intro init; exact le_refl _
  | cons a l ih =>
    intro init
    simp only [List.foldl_cons]
    exact le_trans (le_max_left init (f a)) (ih (max init (f a)))

theorem foldl_max_mem {α : Type} (f : α → Nat) :
    ∀ (l : List α) (init : Nat) (x : α), x ∈ l →
      f x ≤ l.foldl (fun m y => max m (f y)) init := by
  intro l
  induction l with
  | nil => intro init x hx; exact absurd hx (List.not_mem_nil x)
  | cons a l ih =>
    intro init x hx
    simp only [List.foldl_cons]
    rcases List.mem_cons.mp hx with hx | hx
    · subst hx
      exact le_trans (le_max_right init (f x)) (foldl_max_le f l (max init (f x)))
    · exact ih (max init (f a)) x hx

theorem foldl_max_congr {α β : Type} (f : α → Nat) (g : β → Nat)
    (l1 : List α) (l2 : List β)
    (h : List.Forall₂ (fun a b => f a = g b) l1 l2) :
    ∀ init, l1.foldl (fun m a => max m (f a)) init =
      l2.foldl (fun m b => max m (g b)) init := by
  induction h with
  | nil => intro init; rfl
  | cons hab htail ih =>
    intro init
    simp only [List.foldl_cons]
    rw [hab]
    exact ih _

theorem foldl_add_eq_sum {α : Type} (f : α → Nat) :
    ∀ (l : List α) (init : Nat),
      l.foldl (fun t x => t + f x) init = init + (l.map f).sum := by
  intro l
  induction l with
  | nil => intro init; simp
  | cons a l ih =>
    intro init
    simp only [List.foldl_cons, List.map_cons, List.sum_cons]
    rw [ih]
    omega

theorem forall2_total_sum (bds : List BlockData) (blocks : List RSBlock)
    (h : List.Forall₂ (fun (bd : BlockData) (b : RSBlock) =>
      bd.dc.length = b.DataCount ∧ bd.ec.length = b.TotalCount - b.DataCount)
      bds blocks) :
    (∀ b ∈ blocks, b.DataCount ≤ b.TotalCount) →
      ((bds.map BlockData.dc).map List.length).sum +
        ((bds.map BlockData.ec).map List.length).sum =
       (blocks.map RSBlock.TotalCount).sum := by
  induction h with
  | nil => intro _; rfl
  | @cons bd b bds2 blocks2 hab htail ih =>
    intro hwf
    simp only [List.map_cons, List.sum_cons]
    have hb := hwf b (List.mem_cons_self b blocks2)
    have hrest := ih (fun x hx => hwf x (List.mem_cons_of_mem b hx))
    obtain ⟨h1, h2⟩ := hab
    omega

/-- C10 (amended): whenever `CreateBytes` succeeds on well-formed blocks, the
returned stream is exactly the claim's column-major interleave - each block
contributes `DataCount` data codewords and `TotalCount - DataCount`
error-correction codewords, each emitted exactly once (the interleave is a
permutation of the concatenated per-block arrays), and the total length is
the sum of `TotalCount`; the original claim fails only because `CreateBytes`
can instead return nil, e.g. when a block's data codewords are all zero. -/
theorem C10_interleave (buffer : List Nat) (blocks : List RSBlock) (out : List Nat)
    (hwf : ∀ b ∈ blocks, b.DataCount ≤ b.TotalCount)
    (h : CreateBytes buffer blocks = some out) :
    out.length = blocks.foldl (fun t b => t + b.TotalCount) 0 ∧
    ∃ bds, computeBlocks buffer blocks = some bds ∧
      List.Forall₂ (fun (bd : BlockData) (b : RSBlock) =>
        bd.dc.length = b.DataCount ∧ bd.ec.length = b.TotalCount - b.DataCount)
        bds blocks ∧
      out = columnMajorSpec (bds.map BlockData.dc) ++
        columnMajorSpec (bds.map BlockData.ec) ∧
      (columnMajorSpec (bds.map BlockData.dc)).Perm (bds.map BlockData.dc).flatten ∧
      (columnMajorSpec (bds.map BlockData.ec)).Perm (bds.map BlockData.ec).flatten := by
  unfold CreateBytes at h
  simp only [Option.bind_eq_bind] at h
  rw [Option.bind_eq_some] at h
  obtain ⟨bds, hbds, h⟩ := h
  have hF : List.Forall₂ (fun (bd : BlockData) (b : RSBlock) =>
      bd.dc.length = b.DataCount ∧ bd.ec.length = b.TotalCount - b.DataCount)
      bds blocks := by
    have hbds2 := hbds
    unfold computeBlocks at hbds2
    exact computeBlocksGo_spec buffer blocks 0 bds hbds2
  have hFdc : List.Forall₂
      (fun (bd : BlockData) (b : RSBlock) => bd.dc.length = b.DataCount)
      bds blocks := hF.imp (fun _ _ hab => hab.1)
  have hFec : List.Forall₂
      (fun (bd : BlockData) (b : RSBlock) => bd.ec.length = b.TotalCount - b.DataCount)
      bds blocks := hF.imp (fun _ _ hab => hab.2)
  have hMdc : (bds.map BlockData.dc).foldl (fun m r => max m r.length) 0 =
      blocks.foldl (fun m b => max m b.DataCount) 0 := by
    rw [List.foldl_map]
    exact foldl_max_congr (fun bd => bd.dc.length) (fun b => b.DataCount)
      bds blocks hFdc 0
  have hMec : (bds.map BlockData.ec).foldl (fun m r => max m r.length) 0 =
      blocks.foldl (fun m b => max m (b.TotalCount - b.DataCount)) 0 := by
    rw [List.foldl_map]
    exact foldl_max_congr (fun bd => bd.ec.length)
      (fun b => b.TotalCount - b.DataCount) bds blocks hFec 0
  have hfmdc : ∀ j, (bds.map BlockData.dc).filterMap (fun row => row.get? j) =
      bds.filterMap (fun bd => bd.dc.get? j) := by
    intro j
    rw [List.filterMap_map]
    rfl
  have hfmec : ∀ j, (bds.map BlockData.ec).filterMap (fun row => row.get? j) =
      bds.filterMap (fun bd => bd.ec.get? j) := by
    intro j
    rw [List.filterMap_map]
    rfl
  have hcmdc : columnMajorSpec (bds.map BlockData.dc) =
      (List.range (blocks.foldl (fun m b => max m b.DataCount) 0)).flatMap
        (fun i => bds.filterMap (fun bd => bd.dc.get? i)) := by
    unfold columnMajorSpec
    rw [hMdc]
    simp only [hfmdc]
  have hcmec : columnMajorSpec (bds.map BlockData.ec) =
      (List.range (blocks.foldl (fun m b => max m (b.TotalCount - b.DataCount)) 0)).flatMap
        (fun i => bds.filterMap (fun bd => bd.ec.get? i)) := by
    unfold columnMajorSpec
    rw [hMec]
    simp only [hfmec]
  have hpermdc : (columnMajorSpec (bds.map BlockData.dc)).Perm
      (bds.map BlockData.dc).flatten := by
    unfold columnMajorSpec
    exact colMajor_perm_flatten (bds.map BlockData.dc) _
      (fun r hr => foldl_max_mem List.length (bds.map BlockData.dc) 0 r hr)
  have hpermec : (columnMajorSpec (bds.map BlockData.ec)).Perm
      (bds.map BlockData.ec).flatten := by
    unfold columnMajorSpec
    exact colMajor_perm_flatten (bds.map BlockData.ec) _
      (fun r hr => foldl_max_mem List.length (bds.map BlockData.ec) 0 r hr)
  have hwl : (columnMajorSpec (bds.map BlockData.dc) ++
      columnMajorSpec (bds.map BlockData.ec)).length =
      blocks.foldl (fun t b => t + b.TotalCount) 0 := by
    rw [List.length_append, hpermdc.length_eq, hpermec.length_eq,
      List.length_flatten, List.length_flatten, foldl_add_eq_sum]
    simp only [Nat.zero_add]
    exact forall2_total_sum bds blocks hF hwf
  rw [← hcmdc, ← hcmec] at h
  split at h
  · exact absurd h (by simp)
  · rename_i hguard
    simp only [Option.pure_def, Option.some.injEq] at h
    rw [hwl] at h
    simp only [Nat.sub_self, List.replicate_zero, List.append_nil] at h
    refine ⟨?_, bds, hbds, hF, h.symm, hpermdc, hpermec⟩
    rw [← h]
    exact hwl

theorem C3_mask_selection_witness :
    makeChosenMask 3 lostMaskOneBest = 3 ∧
    lostMaskOneBest (BestMaskPattern lostMaskOneBest) ≤ lostMaskOneBest 5 :=
  ⟨(C3_mask_selection lostMaskOneBest 3).1 (by decide) (by decide),
   (C3_mask_selection lostMaskOneBest 3).2.2.2.1 5 (by decide)⟩

theorem C10_interleave_witness :
    ([5, 15, 10] : List Nat).length =
      ([(⟨3, 1⟩ : RSBlock)].foldl (fun t b => t + b.TotalCount) 0) :=
  (C10_interleave [5] [⟨3, 1⟩] [5, 15, 10] (by decide) (by decide)).1
